import Mathlib

/-!
Verification of the spiderbrain knowledge-capture tool: a shallow embedding of
its tag pipeline (src/ai/tags/generator.ts), tag service (core/tags/service.ts),
node store (src/core/storage.ts), search wrapper (src/core/search.ts) and retry
executor (src/utils/retry.ts), with theorems checking the specification's
claims against these definitions.

Modelling conventions: JavaScript numbers that only ever hold integral counts
become Nat; relevance scores and delays become Rat; `undefined` optional fields
become Option; JS truthiness of an optional number is "present and nonzero";
exceptions become Except; the effects of the file system and of the language
model are passed in explicitly as outcome parameters.
-/

deriving instance DecidableEq for Except

namespace SpiderBrain

/-! ### Character and string helpers (JS string primitives on char lists) -/

/-- JS `String.prototype.split` on a character class: split at every char
satisfying `p`, keeping empty pieces (including a trailing one). -/
def splitChars (p : Char → Bool) : List Char → List (List Char)
  | [] => [[]]
  | c :: cs =>
    if p c then [] :: splitChars p cs
    else
      match splitChars p cs with
      | [] => [[c]]
      | g :: gs => (c :: g) :: gs

/-- Whitespace characters trimmed by JS `trim` (the ones that occur here). -/
def isWs (c : Char) : Bool :=
  c = ' ' || c = '\t' || c = '\n' || c = '\r'

/-- JS `String.prototype.trim`: drop leading and trailing whitespace. -/
def trimChars (cs : List Char) : List Char :=
  ((cs.dropWhile isWs).reverse.dropWhile isWs).reverse

/-- Does `needle` occur at the head of `hay`? -/
def matchesAt : List Char → List Char → Bool
  | [], _ => true
  | _ :: _, [] => false
  | n :: ns, h :: hs => n = h && matchesAt ns hs

/-- JS `String.prototype.includes`: does `needle` occur anywhere in `hay`? -/
def containsSub (needle : List Char) : List Char → Bool
  | [] => matchesAt needle []
  | h :: hs => matchesAt needle (h :: hs) || containsSub needle hs

/-- JS `String.prototype.replace` with a string pattern: replace only the
first occurrence of `pat` (leave the string unchanged when absent). -/
def replaceFirst (pat repl : List Char) : List Char → List Char
  | [] => if matchesAt pat [] then repl else []
  | c :: cs =>
    if matchesAt pat (c :: cs) then repl ++ (c :: cs).drop pat.length
    else c :: replaceFirst pat repl cs

/-- Keep only the text after the last `:` (JS `tag.split(":").pop() || ""`). -/
def afterLastColon (cs : List Char) : List Char :=
  (splitChars (· = ':') cs).getLastD []

/-! ### Tag pipeline data model (src/ai/tags/types.ts) -/

/-- Tag format options. -/
inductive TagFormat where
  | hashtag
  | plain
  | custom
deriving DecidableEq

/-- Generated tag with metadata. Relevance scores are modelled as Rat. -/
structure Tag where
  text : String
  relevance : ℚ
  category : Option String := none
deriving DecidableEq

/-- Tag validation rule: name, predicate, error message. -/
structure TagValidationRule where
  name : String
  validate : String → Bool
  errorMessage : String

/-- Tag generation configuration. Optional numeric fields keep their
JS-truthiness semantics (absent or zero means the filter is off). -/
structure TagConfig where
  format : TagFormat
  customFormat : Option String := none
  maxTags : Option Nat := none
  minRelevance : Option ℚ := none
  deduplicate : Option Bool := none
  validationRules : List TagValidationRule := []

/-- TagError: we keep the message and machine-readable code (the free-form
`details` payload of the source is not modelled). -/
structure TagError where
  message : String
  code : String
deriving DecidableEq

/-- Tag generation result: the filtered tags plus the tag counts from the
metadata block (timing and model name are not modelled). -/
structure TagResult where
  tags : List Tag
  totalTags : Nat
  filteredTags : Nat
deriving DecidableEq

/-- Default tag configuration (DEFAULT_CONFIG in generator.ts). -/
def DEFAULT_CONFIG : TagConfig :=
  { format := .hashtag, maxTags := some 5, minRelevance := some (mkRat 1 2),
    deduplicate := some true }

/-- Characters admitted by the default format rule's regex `[a-zA-Z0-9-_]`. -/
def isTagChar (c : Char) : Bool :=
  c.isAlpha || c.isDigit || c = '-' || c = '_'

/-- Default length rule: between 2 and 50 characters. -/
def lengthRule (tag : String) : Bool :=
  decide (2 ≤ tag.length) && decide (tag.length ≤ 50)

/-- Default format rule: `/^[a-zA-Z0-9-_]+$/.test(tag)`. -/
def formatRule (tag : String) : Bool :=
  !tag.isEmpty && tag.toList.all isTagChar

/-- DEFAULT_VALIDATION_RULES from generator.ts. -/
def DEFAULT_VALIDATION_RULES : List TagValidationRule :=
  [⟨"length", lengthRule, "Tag length must be between 2 and 50 characters"⟩,
   ⟨"format", formatRule,
    "Tag can only contain letters, numbers, hyphens, and underscores"⟩]

/-! ### Tag extraction (TagGenerator.extractTags, first version in file) -/

/-- Lowercased char list of a candidate (JS `toLowerCase`). -/
def lowerChars (cs : List Char) : List Char :=
  cs.map Char.toLower

/-- One candidate's cleanup in extractTags: trim, strip a leading run of
`#@!?`, keep only text after the last colon when one is present, trim again. -/
def cleanCandidate (raw : List Char) : List Char :=
  let t1 := trimChars raw
  let t2 := t1.dropWhile (fun c => c = '#' || c = '@' || c = '!' || c = '?')
  let t3 := if t2.contains ':' then afterLastColon t2 else t2
  trimChars t3

/-- The filter applied to cleaned candidates in extractTags: nonempty, at most
50 chars, no internal space, and not containing (case-insensitively) any of
the meta-words "tag", "example", "content". -/
def keepCandidate (t : List Char) : Bool :=
  decide (0 < t.length) && decide (t.length ≤ 50) &&
  !(t.contains ' ') &&
  !(containsSub ['t','a','g'] (lowerChars t)) &&
  !(containsSub ['e','x','a','m','p','l','e'] (lowerChars t)) &&
  !(containsSub ['c','o','n','t','e','n','t'] (lowerChars t))

/-- TagGenerator.extractTags: split the model response on commas and
newlines, clean each candidate, and filter out prose fragments. -/
def TagGenerator.extractTags (response : String) : List String :=
  (((splitChars (fun c => c = ',' || c = '\n') response.toList).map
      cleanCandidate).filter keepCandidate).map (fun cs => String.mk cs)

/-! ### Validation (TagGenerator.processTags) -/

/-- Run the rules in order on one tag; the first failing rule produces the
VALIDATION_ERROR TagError the source throws. -/
def validateTag (rules : List TagValidationRule) (tag : String) :
    Option TagError :=
  match rules with
  | [] => none
  | r :: rs =>
    if r.validate tag then validateTag rs tag
    else some ⟨r.errorMessage, "VALIDATION_ERROR"⟩

/-- Traverse the tags in order, validating each against the rules; each
surviving tag gets relevance 1.0 and no category. -/
def processTagsAux (rules : List TagValidationRule) :
    List String → Except TagError (List Tag)
  | [] => .ok []
  | t :: ts =>
    match validateTag rules t with
    | some e => .error e
    | none =>
      match processTagsAux rules ts with
      | .error e => .error e
      | .ok rest => .ok (⟨t, 1, none⟩ :: rest)

/-- TagGenerator.processTags: default rules first, then the configured
custom rules. -/
def TagGenerator.processTags (tags : List String) (config : TagConfig) :
    Except TagError (List Tag) :=
  processTagsAux (DEFAULT_VALIDATION_RULES ++ config.validationRules) tags

/-! ### Formatting (TagGenerator.formatTag / formatTags) -/

/-- TagGenerator.formatTag. `custom` with an absent or empty template is the
CONFIG_ERROR the source throws (JS truthiness of `config.customFormat`). -/
def TagGenerator.formatTag (tag : String) (config : TagConfig) :
    Except TagError String :=
  match config.format with
  | .hashtag => .ok ("#" ++ tag)
  | .plain => .ok tag
  | .custom =>
    let fmt := config.customFormat.getD ""
    if fmt.isEmpty then
      .error ⟨"Custom format string is required for 'custom' format",
              "CONFIG_ERROR"⟩
    else
      .ok (String.mk (replaceFirst "{tag}".toList tag.toList fmt.toList))

/-- TagGenerator.formatTags: map formatTag over the tag texts; the first
formatting error aborts. -/
def TagGenerator.formatTags (config : TagConfig) :
    List Tag → Except TagError (List Tag)
  | [] => .ok []
  | t :: ts =>
    match TagGenerator.formatTag t.text config with
    | .error e => .error e
    | .ok s =>
      match TagGenerator.formatTags config ts with
      | .error e => .error e
      | .ok rest => .ok ({ t with text := s } :: rest)

/-! ### Filtering (TagGenerator.filterTags) -/

/-- JS truthiness of an optional number: present and nonzero. -/
def truthyNum (x : Option ℚ) : Bool :=
  match x with
  | none => false
  | some m => decide (m ≠ 0)

/-- JS truthiness of an optional count: present and nonzero. -/
def truthyNat (x : Option Nat) : Bool :=
  match x with
  | none => false
  | some n => decide (n ≠ 0)

/-- JS truthiness of an optional boolean. -/
def truthyBool (x : Option Bool) : Bool :=
  x.getD false

/-- The relevance cutoff step: keep tags with `relevance >= minRelevance`,
active only when `minRelevance` is truthy. -/
def relevanceStep (config : TagConfig) (tags : List Tag) : List Tag :=
  if truthyNum config.minRelevance then
    tags.filter (fun t => decide (config.minRelevance.getD 0 ≤ t.relevance))
  else tags

/-- The maximum-count step: `slice(0, maxTags)`, active only when `maxTags`
is truthy. -/
def maxTagsStep (config : TagConfig) (tags : List Tag) : List Tag :=
  if truthyNat config.maxTags then tags.take (config.maxTags.getD 0)
  else tags

/-- The `seen`-set dedup loop: keep a tag iff its exact text has not been
seen before. -/
def dedupAux : List Tag → List String → List Tag
  | [], _ => []
  | t :: ts, seen =>
    if seen.contains t.text then dedupAux ts seen
    else t :: dedupAux ts (t.text :: seen)

/-- The dedup step, active only when `deduplicate` is truthy. -/
def dedupStep (config : TagConfig) (tags : List Tag) : List Tag :=
  if truthyBool config.deduplicate then dedupAux tags []
  else tags

/-- TagGenerator.filterTags, mirroring the source's sequence of reassignments
to `filtered`: relevance cutoff, then max-count truncation, then dedup. -/
def TagGenerator.filterTags (tags : List Tag) (config : TagConfig) : List Tag :=
  let f1 :=
    if truthyNum config.minRelevance then
      tags.filter (fun t => decide (config.minRelevance.getD 0 ≤ t.relevance))
    else tags
  let f2 :=
    if truthyNat config.maxTags then f1.take (config.maxTags.getD 0)
    else f1
  if truthyBool config.deduplicate then dedupAux f2 []
  else f2

/-- The filter order the spec describes (§4.3 step 6): maximum-count
truncation first, then the relevance cutoff, then dedup. Declared only to be
compared against the source-derived `TagGenerator.filterTags`. -/
def filterTagsSpecOrder (tags : List Tag) (config : TagConfig) : List Tag :=
  dedupStep config (relevanceStep config (maxTagsStep config tags))

/-! ### Full pipeline (TagGenerator.generateTags) and TagService -/

/-- The body of the generator's try block: extract, validate, format, filter;
returns the filtered tags plus the pre-filter count used in the metadata. -/
def generateTagsBody (response : String) (config : TagConfig) :
    Except TagError (List Tag × Nat) :=
  match TagGenerator.processTags (TagGenerator.extractTags response) config with
  | .error e => .error e
  | .ok tags =>
    match TagGenerator.formatTags config tags with
    | .error e => .error e
    | .ok formatted => .ok (TagGenerator.filterTags formatted config, tags.length)

/-- TagGenerator.generateTags: the model response is passed in as an outcome
(`.error` when the gateway call failed); any error inside the try block is
rethrown as the GENERATION_ERROR TagError. `config` is the already-merged
instance-plus-call configuration. -/
def TagGenerator.generateTags (modelResponse : Except TagError String)
    (config : TagConfig) : Except TagError TagResult :=
  match modelResponse with
  | .error _ => .error ⟨"Failed to generate tags", "GENERATION_ERROR"⟩
  | .ok response =>
    match generateTagsBody response config with
    | .error _ => .error ⟨"Failed to generate tags", "GENERATION_ERROR"⟩
    | .ok (filtered, total) => .ok ⟨filtered, total, filtered.length⟩

/-- TagService.generateTags (core/tags/service.ts): catch any pipeline error
and fall back to the empty tag list; on success keep only the tag texts. -/
def TagService.generateTags (pipelineOutcome : Except TagError TagResult) :
    List String :=
  match pipelineOutcome with
  | .ok result => result.tags.map (fun t => t.text)
  | .error _ => []

/-! ### Node store data model (src/core/types.ts, src/core/storage.ts) -/

/-- A node: the atomic unit of knowledge. `metadata` is the open string-keyed
bag, modelled as an optional association list. -/
structure Node where
  id : String
  timestamp : Nat
  raw_text : String
  tags : List String
  metadata : Option (List (String × String)) := none
deriving DecidableEq

/-- CreateNodeOptions. -/
structure CreateNodeOptions where
  raw_text : String
  tags : Option (List String) := none
  metadata : Option (List (String × String)) := none

/-- The errors the node store raises: path validation failure, a missing id,
or a StorageError wrapping an I/O failure. -/
inductive StorageErr where
  | pathValidation (message : String)
  | nodeNotFound (id : String)
  | storage (message : String)
deriving DecidableEq

/-- `Map.set` on the insertion-ordered map of nodes: overwrite in place when
the key exists, otherwise append. -/
def mapSet : List (String × Node) → String → Node → List (String × Node)
  | [], k, v => [(k, v)]
  | (k', v') :: rest, k, v =>
    if k' = k then (k, v) :: rest else (k', v') :: mapSet rest k v

/-- `Map.get` on the node map. -/
def mapGet : List (String × Node) → String → Option Node
  | [], _ => none
  | (k', v) :: rest, k => if k' = k then some v else mapGet rest k

/-- Storage state: the in-memory map (insertion-ordered) and the backing
JSONL file, modelled as the list of node records its lines hold. -/
structure StorageState where
  nodes : List (String × Node)
  file : List Node
deriving DecidableEq

/-- The external outcomes a create call can encounter: path validation,
the append, and the tag-service pipeline outcome. -/
structure CreateEffects where
  pathOk : Bool
  appendOk : Bool
  genOutcome : Except TagError TagResult

/-- NodeStorage.create. The generated id and timestamp are inputs; tag
generation runs only when no tags were provided and a tag service exists
(`isTestMode = false`); the in-memory insert happens only after the append
succeeds. -/
def NodeStorage.create (st : StorageState) (isTestMode : Bool)
    (opts : CreateNodeOptions) (id : String) (timestamp : Nat)
    (eff : CreateEffects) : Except StorageErr Node × StorageState :=
  let node0 : Node :=
    ⟨id, timestamp, opts.raw_text, opts.tags.getD [], opts.metadata⟩
  if !eff.pathOk then (.error (.pathValidation "Path validation failed"), st)
  else
    let node :=
      if (opts.tags.getD []).isEmpty && !isTestMode then
        { node0 with tags := TagService.generateTags eff.genOutcome }
      else node0
    if !eff.appendOk then (.error (.storage "Failed to create node"), st)
    else (.ok node, ⟨mapSet st.nodes id node, st.file ++ [node]⟩)

/-- `Partial<Node>`: each field optionally overridden. -/
structure NodeUpdates where
  id : Option String := none
  timestamp : Option Nat := none
  raw_text : Option String := none
  tags : Option (List String) := none
  metadata : Option (List (String × String)) := none

/-- The JS spread `{ ...node, ...updates }`. -/
def mergeNode (node : Node) (u : NodeUpdates) : Node :=
  ⟨u.id.getD node.id, u.timestamp.getD node.timestamp,
   u.raw_text.getD node.raw_text, u.tags.getD node.tags,
   match u.metadata with
   | some m => some m
   | none => node.metadata⟩

/-- The external outcomes an update call can encounter. -/
structure UpdateEffects where
  pathOk : Bool
  writeOk : Bool
  genOutcome : Except TagError TagResult

/-- Replace the first node whose id matches (the `findIndex` rewrite in
NodeStorage.update). -/
def listReplaceById (id : String) (n : Node) : List Node → List Node
  | [] => []
  | x :: xs => if x.id = id then n :: xs else x :: listReplaceById id n xs

/-- NodeStorage.update: look up by id, spread the partial over the node,
regenerate tags when `raw_text` is truthy in the updates and a tag service
exists, rewrite the whole file, then update the in-memory map. -/
def NodeStorage.update (st : StorageState) (isTestMode : Bool) (id : String)
    (updates : NodeUpdates) (eff : UpdateEffects) :
    Except StorageErr Node × StorageState :=
  match mapGet st.nodes id with
  | none => (.error (.nodeNotFound id), st)
  | some node =>
    let merged := mergeNode node updates
    if !eff.pathOk then (.error (.pathValidation "Path validation failed"), st)
    else
      let updatedNode :=
        if !(updates.raw_text.getD "").isEmpty && !isTestMode then
          { merged with tags := TagService.generateTags eff.genOutcome }
        else merged
      let fileNodes := listReplaceById id updatedNode (st.nodes.map Prod.snd)
      if !eff.writeOk then (.error (.storage "Failed to update node"), st)
      else (.ok updatedNode, ⟨mapSet st.nodes id updatedNode, fileNodes⟩)

/-! ### Retry executor (src/utils/retry.ts) -/

/-- Retry options; delays are modelled as Rat, the error type is a
parameter, and `isRetryable` is optional exactly as in the source. -/
structure RetryOptions (E : Type) where
  maxRetries : Nat
  initialDelay : ℚ
  maxDelay : ℚ
  factor : ℚ
  isRetryable : Option (E → Bool) := none

/-- The throw condition's second disjunct: with no `isRetryable` configured
every error is retried (JS `config.isRetryable && !config.isRetryable(e)`). -/
def retryableErr {E : Type} (isR : Option (E → Bool)) (e : E) : Bool :=
  match isR with
  | none => true
  | some f => f e

/-- The observable trace of one `retry` run: the final outcome, the number of
times the wrapped operation was called, and the inter-attempt delays in
order. -/
structure RetryTrace (E A : Type) where
  outcome : Except E A
  calls : Nat
  delays : List ℚ
deriving DecidableEq

/-- The retry loop. `fn n` is the outcome of the (n+1)-th call of the wrapped
operation; `remaining = maxRetries - attempt` counts the attempts left, so
`remaining = 0` is the source's `attempt === maxRetries` final attempt. On a
retryable non-final failure the current delay is slept, then multiplied by
the factor and capped at `maxDelay`. -/
def retryGo {E A : Type} (fn : Nat → Except E A) (isR : Option (E → Bool))
    (maxDelay factor : ℚ) :
    Nat → Nat → ℚ → List ℚ → RetryTrace E A
  | attempt, 0, _, acc =>
    match fn attempt with
    | .ok a => ⟨.ok a, attempt + 1, acc⟩
    | .error e => ⟨.error e, attempt + 1, acc⟩
  | attempt, r + 1, delay, acc =>
    match fn attempt with
    | .ok a => ⟨.ok a, attempt + 1, acc⟩
    | .error e =>
      if retryableErr isR e then
        retryGo fn isR maxDelay factor (attempt + 1) r
          (min (delay * factor) maxDelay) (acc ++ [delay])
      else ⟨.error e, attempt + 1, acc⟩

/-- The `retry` entry point. -/
def retry {E A : Type} (fn : Nat → Except E A) (opts : RetryOptions E) :
    RetryTrace E A :=
  retryGo fn opts.isRetryable opts.maxDelay opts.factor 0 opts.maxRetries
    opts.initialDelay []

/-! ### Search wrapper (src/core/search.ts) -/

/-- One raw result produced by the underlying MiniSearch engine for a query:
the stored node, its score and its matched terms. The engine's ranking is
delegated, so a search call is modelled over the engine's ranked result
list. -/
structure SearchHit where
  node : Node
  score : ℚ
  terms : List String
deriving DecidableEq

/-- SearchResult from core/types.ts; the source's `matches` field is named
`matchTerms` here because `matches` is reserved in Lean. -/
structure SearchResult where
  node : Node
  score : ℚ
  matchTerms : List String
deriving DecidableEq

/-- SearchOptions from core/types.ts. -/
structure SearchOptions where
  query : String
  limit : Option Nat := none
  fuzzy : Option Bool := none
  minScore : Option ℚ := none

/-- The filter NodeSearch.search passes to the engine: drop a result iff
`minScore` is truthy and the score is strictly below it. -/
def minScoreKeep (o : SearchOptions) (s : ℚ) : Bool :=
  !(truthyNum o.minScore && decide (s < o.minScore.getD 0))

/-- A hit mapped to the returned shape. -/
def toSearchResult (h : SearchHit) : SearchResult :=
  ⟨h.node, h.score, h.terms⟩

/-- The scored, minScore-filtered result list before any truncation. -/
def NodeSearch.searchFull (raw : List SearchHit) (o : SearchOptions) :
    List SearchResult :=
  (raw.filter (fun h => minScoreKeep o h.score)).map toSearchResult

/-- NodeSearch.search: empty when the index was never loaded, otherwise the
filtered, mapped results truncated by `slice(0, limit ?? 10)`. -/
def NodeSearch.search (isLoaded : Bool) (raw : List SearchHit)
    (o : SearchOptions) : List SearchResult :=
  if !isLoaded then []
  else (NodeSearch.searchFull raw o).take (o.limit.getD 10)

/-! ### Concrete instances used by counterexamples and witnesses -/

/-- The spec's dedup example, as the Tag records reaching filterTags. -/
def fooTags : List Tag := [⟨"foo", 1, none⟩, ⟨"FOO", 1, none⟩, ⟨"bar", 1, none⟩]

/-- A configuration with only deduplication active. -/
def dedupOnlyCfg : TagConfig := { format := .plain, deduplicate := some true }

/-- Tags with distinct relevance scores, to separate the filter orders. -/
def mixedTags : List Tag := [⟨"lo", mkRat 2 5, none⟩, ⟨"hi", 1, none⟩]

/-- maxTags 1 with the default relevance cutoff. -/
def oneTagCfg : TagConfig :=
  { format := .plain, maxTags := some 1, minRelevance := some (mkRat 1 2) }

/-- An operation failing twice with a retryable error, then succeeding. -/
def fnEx : Nat → Except String Nat :=
  fun n => if n < 2 then .error "network" else .ok 42

/-- A retry policy admitting a single retry. -/
def cfgEx : RetryOptions String := ⟨1, 7, 100, 2, some (fun _ => true)⟩

/-- A retry policy with three retries and a tight delay cap. -/
def cfgEx2 : RetryOptions String := ⟨3, 7, 10, 2, some (fun _ => true)⟩

/-- A stored node. -/
def nodeA : Node := ⟨"a", 1, "text", [], none⟩

/-- A store holding just `nodeA`. -/
def stEx : StorageState := ⟨[("a", nodeA)], [nodeA]⟩

/-- A partial update that overrides `id` and `timestamp`. -/
def updEx : NodeUpdates := { id := some "b", timestamp := some 99 }

/-- A partial update touching only `raw_text`. -/
def updTextEx : NodeUpdates := { raw_text := some "new" }

/-- Update effects where both file operations succeed. -/
def updEffEx : UpdateEffects := ⟨true, true, .error ⟨"boom", "GENERATION_ERROR"⟩⟩

/-- An engine hit for a query. -/
def hitEx : SearchHit :=
  ⟨⟨"n1", 0, "python tutorial", ["python"], none⟩, 3, ["python"]⟩

/-- Search options with a minScore and no explicit limit. -/
def searchOptsEx : SearchOptions := { query := "python", minScore := some 1 }

/-- maxTags zero with the default relevance cutoff and dedup active. -/
def zeroMaxCfg : TagConfig :=
  { format := .plain, maxTags := some 0, minRelevance := some (mkRat 1 2),
    deduplicate := some true }

/-- minRelevance zero with the default maxTags. -/
def zeroRelCfg : TagConfig :=
  { format := .plain, maxTags := some 5, minRelevance := some 0 }

/-- A tag list with an exact duplicate text ("foo" twice, first at the
head) and a differently-cased variant. -/
def dupTags : List Tag :=
  [⟨"foo", 1, none⟩, ⟨"FOO", 1, none⟩, ⟨"foo", 1, none⟩, ⟨"bar", 1, none⟩]

/-! ### Helper lemmas -/

theorem mem_dedupAux {t : Tag} :
    ∀ {ts : List Tag} {seen : List String}, t ∈ dedupAux ts seen → t ∈ ts := by
  intro ts
  induction ts with
  | nil => intro seen h; simp [dedupAux] at h
  | cons x xs ih =>
    intro seen h
    simp only [dedupAux] at h
    by_cases hc : seen.contains x.text
    · simp only [hc, if_pos] at h
      exact List.mem_cons_of_mem x (ih h)
    · simp only [hc, if_neg] at h
      rcases List.mem_cons.mp h with h | h
      · exact h ▸ List.mem_cons_self x xs
      · exact List.mem_cons_of_mem x (ih h)

theorem mem_filterTags {t : Tag} {ts : List Tag} {cfg : TagConfig}
    (h : t ∈ TagGenerator.filterTags ts cfg) : t ∈ ts := by
  simp only [TagGenerator.filterTags] at h
  have h2 : t ∈
      (if truthyNat cfg.maxTags then
        (if truthyNum cfg.minRelevance then
          ts.filter (fun t => decide (cfg.minRelevance.getD 0 ≤ t.relevance))
        else ts).take (cfg.maxTags.getD 0)
      else
        (if truthyNum cfg.minRelevance then
          ts.filter (fun t => decide (cfg.minRelevance.getD 0 ≤ t.relevance))
        else ts)) := by
    by_cases hd : truthyBool cfg.deduplicate
    · simp only [hd, if_pos] at h; exact mem_dedupAux h
    · simp only [hd, if_neg] at h; exact h
  have h1 : t ∈
      (if truthyNum cfg.minRelevance then
        ts.filter (fun t => decide (cfg.minRelevance.getD 0 ≤ t.relevance))
      else ts) := by
    by_cases hm : truthyNat cfg.maxTags
    · simp only [hm, if_pos] at h2; exact List.take_subset _ _ h2
    · simp only [hm, if_neg] at h2; exact h2
  by_cases hr : truthyNum cfg.minRelevance
  · simp only [hr, if_pos] at h1; exact List.mem_of_mem_filter h1
  · simp only [hr, if_neg] at h1; exact h1

theorem validateTag_cons {r : TagValidationRule} {rs : List TagValidationRule}
    {s : String} (h : validateTag (r :: rs) s = none) :
    r.validate s = true ∧ validateTag rs s = none := by
  by_cases hv : r.validate s
  · exact ⟨hv, by simpa [validateTag, hv] using h⟩
  · simp [validateTag, hv] at h

theorem processTagsAux_mem {rules : List TagValidationRule} :
    ∀ {raws : List String} {tags : List Tag},
      processTagsAux rules raws = .ok tags → ∀ t ∈ tags,
        validateTag rules t.text = none ∧ t.relevance = 1 := by
  intro raws
  induction raws with
  | nil =>
    intro tags h t ht
    simp only [processTagsAux] at h
    cases h; simp at ht
  | cons x xs ih =>
    intro tags h t ht
    simp only [processTagsAux] at h
    cases hv : validateTag rules x with
    | some e => rw [hv] at h; cases h
    | none =>
      rw [hv] at h
      cases hrec : processTagsAux rules xs with
      | error e => rw [hrec] at h; cases h
      | ok rest =>
        rw [hrec] at h
        cases h
        rcases List.mem_cons.mp ht with h | h
        · subst h; exact ⟨hv, rfl⟩
        · exact ih hrec t h

theorem formatTags_mem {cfg : TagConfig} :
    ∀ {ts fs : List Tag}, TagGenerator.formatTags cfg ts = .ok fs →
      ∀ f ∈ fs, ∃ t ∈ ts, TagGenerator.formatTag t.text cfg = .ok f.text := by
  intro ts
  induction ts with
  | nil =>
    intro fs h f hf
    simp only [TagGenerator.formatTags] at h
    cases h; simp at hf
  | cons x xs ih =>
    intro fs h f hf
    simp only [TagGenerator.formatTags] at h
    cases hx : TagGenerator.formatTag x.text cfg with
    | error e => rw [hx] at h; cases h
    | ok s =>
      rw [hx] at h
      cases hrec : TagGenerator.formatTags cfg xs with
      | error e => rw [hrec] at h; cases h
      | ok rest =>
        rw [hrec] at h
        cases h
        rcases List.mem_cons.mp hf with h | h
        · subst h; exact ⟨x, List.mem_cons_self x xs, hx⟩
        · obtain ⟨t, ht, hfmt⟩ := ih hrec f h
          exact ⟨t, List.mem_cons_of_mem x ht, hfmt⟩

theorem dedupAux_sublist : ∀ (ts : List Tag) (seen : List String),
    List.Sublist (dedupAux ts seen) ts := by
  intro ts
  induction ts with
  | nil => intro seen; simp [dedupAux]
  | cons x xs ih =>
    intro seen
    simp only [dedupAux]
    by_cases hc : seen.contains x.text
    · simp only [hc, if_pos]
      exact List.Sublist.cons x (ih seen)
    · simp only [hc, if_neg]
      exact List.Sublist.cons₂ x (ih (x.text :: seen))

theorem contains_mem_str {l : List String} {s : String} :
    l.contains s = true ↔ s ∈ l := by
  simp [List.contains]

theorem dedupAux_not_mem_of_seen :
    ∀ (ts : List Tag) (seen : List String) (s : String), s ∈ seen →
      s ∉ (dedupAux ts seen).map Tag.text := by
  intro ts
  induction ts with
  | nil => intro seen s _ h; simp [dedupAux] at h
  | cons x xs ih =>
    intro seen s hs h
    simp only [dedupAux] at h
    cases hc : seen.contains x.text with
    | true =>
      rw [hc] at h; simp only [if_pos] at h
      exact ih seen s hs h
    | false =>
      rw [hc] at h
      simp only [Bool.false_eq_true, if_false, List.map_cons] at h
      rcases List.mem_cons.mp h with h | h
      · have hx : x.text ∈ seen := h ▸ hs
        rw [contains_mem_str.mpr hx] at hc; cases hc
      · exact ih (x.text :: seen) s (List.mem_cons_of_mem _ hs) h

theorem dedupAux_texts_nodup : ∀ (ts : List Tag) (seen : List String),
    ((dedupAux ts seen).map Tag.text).Nodup := by
  intro ts
  induction ts with
  | nil => intro seen; simp [dedupAux]
  | cons x xs ih =>
    intro seen
    simp only [dedupAux]
    cases hc : seen.contains x.text with
    | true => simp only [if_pos]; exact ih seen
    | false =>
      simp only [Bool.false_eq_true, if_false, List.map_cons]
      exact List.nodup_cons.mpr
        ⟨dedupAux_not_mem_of_seen xs (x.text :: seen) x.text
          (List.mem_cons_self _ _), ih (x.text :: seen)⟩

theorem dedupAux_text_complete :
    ∀ (ts : List Tag) (seen : List String) (t : Tag), t ∈ ts →
      t.text ∈ seen ∨ t.text ∈ (dedupAux ts seen).map Tag.text := by
  intro ts
  induction ts with
  | nil => intro seen t ht; simp at ht
  | cons x xs ih =>
    intro seen t ht
    simp only [dedupAux]
    rcases List.mem_cons.mp ht with h | h
    · subst h
      cases hc : seen.contains t.text with
      | true => exact Or.inl (contains_mem_str.mp hc)
      | false =>
        simp only [Bool.false_eq_true, if_false, List.map_cons]
        exact Or.inr (List.mem_cons_self _ _)
    · cases hc : seen.contains x.text with
      | true =>
        simp only [if_pos]
        exact ih seen t h
      | false =>
        simp only [Bool.false_eq_true, if_false, List.map_cons]
        rcases ih (x.text :: seen) t h with hin | hin
        · rcases List.mem_cons.mp hin with he | he
          · exact Or.inr (he ▸ List.mem_cons_self _ _)
          · exact Or.inl he
        · exact Or.inr (List.mem_cons_of_mem _ hin)

theorem dedupAux_find_first :
    ∀ (ts : List Tag) (seen : List String) (t : Tag), t ∈ dedupAux ts seen →
      t.text ∉ seen ∧ ts.find? (fun x => x.text == t.text) = some t := by
  intro ts
  induction ts with
  | nil => intro seen t ht; simp [dedupAux] at ht
  | cons x xs ih =>
    intro seen t ht
    simp only [dedupAux] at ht
    cases hc : seen.contains x.text with
    | true =>
      rw [hc] at ht; simp only [if_pos] at ht
      obtain ⟨hseen, hfind⟩ := ih seen t ht
      have hne : x.text ≠ t.text := by
        intro he
        exact hseen (he ▸ contains_mem_str.mp hc)
      refine ⟨hseen, ?_⟩
      rw [List.find?_cons_of_neg _ (by simpa using hne)]
      exact hfind
    | false =>
      rw [hc] at ht
      simp only [Bool.false_eq_true, if_false] at ht
      have hxseen : x.text ∉ seen := fun hmem =>
        by rw [contains_mem_str.mpr hmem] at hc; cases hc
      rcases List.mem_cons.mp ht with h | h
      · subst h
        exact ⟨hxseen, List.find?_cons_of_pos _ (by simp)⟩
      · obtain ⟨hseen, hfind⟩ := ih (x.text :: seen) t h
        have hne : x.text ≠ t.text := fun he =>
          hseen (he ▸ List.mem_cons_self _ _)
        refine ⟨fun hmem => hseen (List.mem_cons_of_mem _ hmem), ?_⟩
        rw [List.find?_cons_of_neg _ (by simpa using hne)]
        exact hfind

theorem mapGet_mapSet_self : ∀ (m : List (String × Node)) (k : String) (v : Node),
    mapGet (mapSet m k v) k = some v := by
  intro m
  induction m with
  | nil => intro k v; simp [mapSet, mapGet]
  | cons p rest ih =>
    intro k v
    obtain ⟨k', v'⟩ := p
    simp only [mapSet]
    by_cases hk : k' = k
    · simp [hk, mapGet]
    · simp only [hk, if_false, mapGet, if_neg hk]
      exact ih k v

/-! ### Claim theorems -/

/-- C1: a create call with no tags provided and tag generation enabled still
succeeds when the tag pipeline fails with any error: the node is appended to
the file and returned with an empty tags list, and no pipeline error reaches
the caller. -/
theorem create_tag_pipeline_error_nonfatal
    (st : StorageState) (opts : CreateNodeOptions) (id : String) (ts : Nat)
    (e : TagError) (htags : opts.tags.getD [] = []) :
    NodeStorage.create st false opts id ts ⟨true, true, .error e⟩ =
      (.ok ⟨id, ts, opts.raw_text, [], opts.metadata⟩,
       ⟨mapSet st.nodes id ⟨id, ts, opts.raw_text, [], opts.metadata⟩,
        st.file ++ [⟨id, ts, opts.raw_text, [], opts.metadata⟩]⟩) := by
  simp [NodeStorage.create, TagService.generateTags, htags]

/-- Witness for C1 at a concrete store, options, and pipeline error. -/
theorem create_tag_pipeline_error_nonfatal_w :
    NodeStorage.create ⟨[], []⟩ false ⟨"hello", none, none⟩ "n1" 5
        ⟨true, true, .error ⟨"boom", "GENERATION_ERROR"⟩⟩ =
      (.ok ⟨"n1", 5, "hello", [], none⟩,
       ⟨[("n1", ⟨"n1", 5, "hello", [], none⟩)], [⟨"n1", 5, "hello", [], none⟩]⟩) :=
  create_tag_pipeline_error_nonfatal ⟨[], []⟩ ⟨"hello", none, none⟩ "n1" 5
    ⟨"boom", "GENERATION_ERROR"⟩ rfl

/-- C2 counterexample: the pipeline run on model output "ab" under the
default configuration produces the tag text "#ab", and "#ab" fails the
default character-set validation rule, so the formatted text that survives
onto a node does not satisfy the validation rules. -/
theorem formatted_tag_violates_rules_cex :
    TagGenerator.generateTags (.ok "ab") DEFAULT_CONFIG =
      .ok ⟨[⟨"#ab", 1, none⟩], 1, 1⟩ ∧
    formatRule "#ab" = false ∧
    validateTag DEFAULT_VALIDATION_RULES "#ab" ≠ none := by decide

/-- C2 amended: every tag surviving the pipeline is the formatted version of
a raw tag that satisfied the default validation rules before formatting
(validation runs on the pre-format text, not on the formatted text). -/
theorem generated_tags_validated_preformat
    (resp : Except TagError String) (cfg : TagConfig) (result : TagResult)
    (h : TagGenerator.generateTags resp cfg = .ok result) :
    ∀ t ∈ result.tags, ∃ raw : String,
      lengthRule raw = true ∧ formatRule raw = true ∧
      TagGenerator.formatTag raw cfg = .ok t.text := by
  intro t ht
  cases resp with
  | error e => simp [TagGenerator.generateTags] at h
  | ok response =>
    simp only [TagGenerator.generateTags] at h
    cases hbody : generateTagsBody response cfg with
    | error e => rw [hbody] at h; cases h
    | ok pair =>
      rw [hbody] at h
      cases h
      obtain ⟨filtered, total⟩ := pair
      simp only [generateTagsBody] at hbody
      cases hproc : TagGenerator.processTags
          (TagGenerator.extractTags response) cfg with
      | error e => rw [hproc] at hbody; cases hbody
      | ok tags =>
        rw [hproc] at hbody
        dsimp only at hbody
        cases hfmt : TagGenerator.formatTags cfg tags with
        | error e => rw [hfmt] at hbody; cases hbody
        | ok formatted =>
          rw [hfmt] at hbody
          dsimp only at hbody
          cases hbody
          have htf : t ∈ formatted := mem_filterTags ht
          obtain ⟨t0, ht0, hok⟩ := formatTags_mem hfmt t htf
          have hval := processTagsAux_mem hproc t0 ht0
          obtain ⟨hvnone, _⟩ := hval
          obtain ⟨hlen, hrest⟩ := validateTag_cons hvnone
          obtain ⟨hfmtRule, _⟩ := validateTag_cons hrest
          exact ⟨t0.text, hlen, hfmtRule, hok⟩

/-- Witness for C2's amended theorem at the concrete pipeline run on "ab". -/
theorem generated_tags_validated_preformat_w :
    ∃ raw : String, lengthRule raw = true ∧ formatRule raw = true ∧
      TagGenerator.formatTag raw DEFAULT_CONFIG = .ok (Tag.text ⟨"#ab", 1, none⟩) :=
  generated_tags_validated_preformat (.ok "ab") DEFAULT_CONFIG
    ⟨[⟨"#ab", 1, none⟩], 1, 1⟩ (by decide) ⟨"#ab", 1, none⟩ (by decide)

/-- C3 counterexample: the dedup in filterTags compares exact text, so the
spec's example input ["foo","FOO","bar"] with deduplicate true yields
["foo","FOO","bar"], not ["foo","bar"]. -/
theorem dedup_case_sensitive_cex :
    (TagGenerator.filterTags fooTags dedupOnlyCfg).map Tag.text =
      ["foo", "FOO", "bar"] ∧
    (["foo", "FOO", "bar"] : List String) ≠ ["foo", "bar"] := by decide

/-- C3 amended: deduplication is case-sensitive on exact tag text and keeps
the first occurrence of each text in first-seen order: the output is a
subsequence of the input, its texts are pairwise distinct under exact
comparison, every input tag's exact text survives, and every output element
is exactly the first element of the input bearing its text. -/
theorem dedup_exact_text_first_seen (ts : List Tag) (t : Tag) (ht : t ∈ ts) :
    List.Sublist (dedupAux ts []) ts ∧
    ((dedupAux ts []).map Tag.text).Nodup ∧
    t.text ∈ (dedupAux ts []).map Tag.text ∧
    ∀ u ∈ dedupAux ts [], ts.find? (fun x => x.text == u.text) = some u := by
  refine ⟨dedupAux_sublist ts [], dedupAux_texts_nodup ts [], ?_, ?_⟩
  · rcases dedupAux_text_complete ts [] t ht with h | h
    · simp at h
    · exact h
  · intro u hu
    exact (dedupAux_find_first ts [] u hu).2

/-- Witness for C3's amended theorem at a list with an exact duplicate. -/
theorem dedup_exact_text_first_seen_w :
    List.Sublist (dedupAux dupTags []) dupTags ∧
    ((dedupAux dupTags []).map Tag.text).Nodup ∧
    Tag.text ⟨"FOO", 1, none⟩ ∈ (dedupAux dupTags []).map Tag.text ∧
    ∀ u ∈ dedupAux dupTags [],
      dupTags.find? (fun x => x.text == u.text) = some u :=
  dedup_exact_text_first_seen dupTags ⟨"FOO", 1, none⟩ (by decide)

/-- C4 counterexample: with maxTags 1 and minRelevance 1/2 on tags of
relevance 2/5 and 1, the source applies the relevance cutoff before the
truncation and keeps the high-relevance tag, while the spec's order
(truncate first) would keep nothing. -/
theorem filter_order_cex :
    TagGenerator.filterTags mixedTags oneTagCfg = [⟨"hi", 1, none⟩] ∧
    filterTagsSpecOrder mixedTags oneTagCfg = [] ∧
    TagGenerator.filterTags mixedTags oneTagCfg ≠
      filterTagsSpecOrder mixedTags oneTagCfg := by decide

/-- C4 amended: filterTags applies its three filters in the order minimum
relevance cutoff, then maximum-count truncation, then deduplication. -/
theorem filter_order_relevance_then_max_then_dedup
    (ts : List Tag) (cfg : TagConfig) :
    TagGenerator.filterTags ts cfg =
      dedupStep cfg (maxTagsStep cfg (relevanceStep cfg ts)) := rfl

/-- C5: when the append to the log file fails, create raises a StorageError
and leaves the storage state (the in-memory map and the file) unchanged; no
node is returned. -/
theorem create_append_failure_atomic
    (st : StorageState) (tm : Bool) (opts : CreateNodeOptions)
    (id : String) (ts : Nat) (gen : Except TagError TagResult) :
    NodeStorage.create st tm opts id ts ⟨true, false, gen⟩ =
      (.error (.storage "Failed to create node"), st) := by
  simp [NodeStorage.create]

/-- C6 counterexample: an update whose partial sets `id` and `timestamp`
succeeds and overwrites both stored fields, because the source spreads the
partial over the node unconditionally. -/
theorem update_overrides_id_timestamp_cex :
    (NodeStorage.update stEx true "a" updEx updEffEx).1 =
      .ok ⟨"b", 99, "text", [], none⟩ ∧
    mapGet (NodeStorage.update stEx true "a" updEx updEffEx).2.nodes "a" =
      some ⟨"b", 99, "text", [], none⟩ ∧
    ("b" : String) ≠ "a" ∧ (99 : Nat) ≠ 1 := by decide

/-- C6 amended: for partial updates that do not themselves set `id` or
`timestamp`, a successful update preserves both fields of the stored
node. -/
theorem update_preserves_id_timestamp
    (st : StorageState) (tm : Bool) (id : String) (u : NodeUpdates)
    (gen : Except TagError TagResult) (node : Node)
    (hfound : mapGet st.nodes id = some node)
    (hid : u.id = none) (hts : u.timestamp = none) :
    ∃ n', (NodeStorage.update st tm id u ⟨true, true, gen⟩).1 = .ok n' ∧
      mapGet (NodeStorage.update st tm id u ⟨true, true, gen⟩).2.nodes id =
        some n' ∧
      n'.id = node.id ∧ n'.timestamp = node.timestamp := by
  simp only [NodeStorage.update, hfound]
  cases hc : (!(u.raw_text.getD "").isEmpty && !tm) with
  | true =>
    refine ⟨_, rfl, ?_, ?_, ?_⟩
    · exact mapGet_mapSet_self _ _ _
    · simp [mergeNode, hid]
    · simp [mergeNode, hts]
  | false =>
    refine ⟨_, rfl, ?_, ?_, ?_⟩
    · exact mapGet_mapSet_self _ _ _
    · simp [mergeNode, hid]
    · simp [mergeNode, hts]

/-- Witness for C6's amended theorem: a raw_text-only update of the stored
node keeps its id and timestamp. -/
theorem update_preserves_id_timestamp_w :
    ∃ n', (NodeStorage.update stEx false "a" updTextEx
        ⟨true, true, .error ⟨"boom", "GENERATION_ERROR"⟩⟩).1 = .ok n' ∧
      mapGet (NodeStorage.update stEx false "a" updTextEx
        ⟨true, true, .error ⟨"boom", "GENERATION_ERROR"⟩⟩).2.nodes "a" =
        some n' ∧
      n'.id = nodeA.id ∧ n'.timestamp = nodeA.timestamp :=
  update_preserves_id_timestamp stEx false "a" updTextEx
    (.error ⟨"boom", "GENERATION_ERROR"⟩) nodeA (by decide) rfl rfl

/-- C7 counterexample: with maxRetries 1, an operation that fails twice with
a retryable error and then would succeed is called only 2 times and the
error is propagated, so the claim does not hold for every retry policy. -/
theorem retry_policy_maxretries_cex :
    (retry fnEx cfgEx).calls = 2 ∧
    (retry fnEx cfgEx).outcome = .error "network" ∧
    fnEx 0 = .error "network" ∧ fnEx 1 = .error "network" ∧ fnEx 2 = .ok 42 ∧
    retryableErr cfgEx.isRetryable "network" = true := by decide

/-- C7 amended: for every retry policy with maxRetries at least 2, an
operation failing twice with retryable errors and then succeeding is called
exactly 3 times, returns the success value, and the two inter-attempt delays
are initialDelay and then initialDelay times the factor capped at
maxDelay. -/
theorem retry_two_retryable_failures {E A : Type}
    (opts : RetryOptions E) (fn : Nat → Except E A) (e0 e1 : E) (v : A)
    (hmr : 2 ≤ opts.maxRetries)
    (h0 : fn 0 = .error e0) (h1 : fn 1 = .error e1) (h2 : fn 2 = .ok v)
    (hr0 : retryableErr opts.isRetryable e0 = true)
    (hr1 : retryableErr opts.isRetryable e1 = true) :
    retry fn opts = ⟨.ok v, 3,
      [opts.initialDelay, min (opts.initialDelay * opts.factor) opts.maxDelay]⟩ := by
  obtain ⟨r, hr⟩ : ∃ r, opts.maxRetries = r + 2 :=
    ⟨opts.maxRetries - 2, by omega⟩
  cases r with
  | zero => simp [retry, hr, retryGo, h0, h1, h2, hr0, hr1]
  | succ r' => simp [retry, hr, retryGo, h0, h1, h2, hr0, hr1]

/-- Witness for C7's amended theorem at a concrete policy and operation. -/
theorem retry_two_retryable_failures_w :
    retry fnEx cfgEx2 = ⟨.ok 42, 3,
      [cfgEx2.initialDelay,
       min (cfgEx2.initialDelay * cfgEx2.factor) cfgEx2.maxDelay]⟩ :=
  retry_two_retryable_failures cfgEx2 fnEx "network" "network" 42
    (by decide) rfl rfl rfl rfl rfl

/-- C8: tag extraction on the spec's example model output keeps exactly the
two candidates after the last colon, and neither candidate fails the default
validation rules. -/
theorem extract_strips_prose :
    TagGenerator.extractTags
        "Here are some relevant tags that could be used: foo, bar" =
      ["foo", "bar"] ∧
    TagGenerator.processTags ["foo", "bar"] DEFAULT_CONFIG =
      .ok [⟨"foo", 1, none⟩, ⟨"bar", 1, none⟩] := by decide

/-- C9: on a loaded index whose engine scores are nonnegative, every result
of a search with a minScore has score at least that minScore (the filter is
a >= comparison), and the result list is the fully scored-and-filtered list
truncated to the limit (default 10) only at the end. -/
theorem search_minscore_filter_then_truncate
    (raw : List SearchHit) (o : SearchOptions) (m : ℚ)
    (hm : o.minScore = some m) (hscores : ∀ h ∈ raw, 0 ≤ h.score) :
    (∀ r ∈ NodeSearch.search true raw o, m ≤ r.score) ∧
    NodeSearch.search true raw o =
      (NodeSearch.searchFull raw o).take (o.limit.getD 10) := by
  constructor
  · intro r hr
    simp only [NodeSearch.search, Bool.not_true, if_false] at hr
    have hfull : r ∈ NodeSearch.searchFull raw o := List.take_subset _ _ hr
    simp only [NodeSearch.searchFull] at hfull
    obtain ⟨h, hmem, hres⟩ := List.mem_map.mp hfull
    obtain ⟨hraw, hkeep⟩ := List.mem_filter.mp hmem
    have hscore : r.score = h.score := by rw [← hres]; rfl
    rw [hscore]
    by_cases hz : m = 0
    · rw [hz]; exact hscores h hraw
    · simp only [minScoreKeep, hm, truthyNum, Option.getD_some] at hkeep
      rw [decide_eq_true hz] at hkeep
      simp only [Bool.true_and, Bool.not_eq_true'] at hkeep
      exact not_lt.mp (of_decide_eq_false hkeep)
  · simp [NodeSearch.search]

/-- Witness for C9 at a concrete loaded index and minScore. -/
theorem search_minscore_filter_then_truncate_w :
    (∀ r ∈ NodeSearch.search true [hitEx] searchOptsEx, (1 : ℚ) ≤ r.score) ∧
    NodeSearch.search true [hitEx] searchOptsEx =
      (NodeSearch.searchFull [hitEx] searchOptsEx).take 10 :=
  search_minscore_filter_then_truncate [hitEx] searchOptsEx 1 rfl (by decide)

/-- C10: a zero-valued threshold disables its own filter, independently of
the other: with maxTags 0 the truncation step is skipped by filterTags (the
other filters apply unchanged) and the truncation step keeps every tag; with
minRelevance 0 the relevance cutoff is skipped by filterTags and the cutoff
step keeps every tag. -/
theorem zero_thresholds_disable_filters (ts : List Tag) (cfg : TagConfig) :
    (cfg.maxTags = some 0 →
      TagGenerator.filterTags ts cfg = dedupStep cfg (relevanceStep cfg ts)) ∧
    (cfg.minRelevance = some 0 →
      TagGenerator.filterTags ts cfg = dedupStep cfg (maxTagsStep cfg ts)) ∧
    (cfg.maxTags = some 0 → maxTagsStep cfg ts = ts) ∧
    (cfg.minRelevance = some 0 → relevanceStep cfg ts = ts) := by
  refine ⟨fun hmax => ?_, fun hmin => ?_, fun hmax => ?_, fun hmin => ?_⟩
  · simp [TagGenerator.filterTags, dedupStep, relevanceStep, truthyNat, hmax]
  · simp [TagGenerator.filterTags, dedupStep, maxTagsStep, truthyNum, hmin]
  · simp [maxTagsStep, truthyNat, hmax]
  · simp [relevanceStep, truthyNum, hmin]

/-- Witness for C10: maxTags 0 with the default relevance cutoff applies no
truncation, and minRelevance 0 with the default maxTags applies no cutoff,
on a concrete tag list. -/
theorem zero_thresholds_disable_filters_w :
    (TagGenerator.filterTags mixedTags zeroMaxCfg =
      dedupStep zeroMaxCfg (relevanceStep zeroMaxCfg mixedTags)) ∧
    (TagGenerator.filterTags mixedTags zeroRelCfg =
      dedupStep zeroRelCfg (maxTagsStep zeroRelCfg mixedTags)) ∧
    maxTagsStep zeroMaxCfg mixedTags = mixedTags ∧
    relevanceStep zeroRelCfg mixedTags = mixedTags :=
  ⟨(zero_thresholds_disable_filters mixedTags zeroMaxCfg).1 rfl,
   (zero_thresholds_disable_filters mixedTags zeroRelCfg).2.1 rfl,
   (zero_thresholds_disable_filters mixedTags zeroMaxCfg).2.2.1 rfl,
   (zero_thresholds_disable_filters mixedTags zeroRelCfg).2.2.2 rfl⟩

end SpiderBrain
